import Mathlib

/-!
Verification development for the triple-coincidence trading pipeline:
shallow embedding of the detectors, combiner, scorer and barrier labeler,
with proofs of the specified properties. Prices and volumes are embedded
as exact rationals.
-/

/-- A candle row of the input table: Open, High, Low, Close, Volume. -/
structure Candle where
  Open : ℚ
  High : ℚ
  Low : ℚ
  Close : ℚ
  Volume : ℚ
deriving Repr, DecidableEq, Inhabited

/-- Maximum of a list of rationals (0 on the empty list; every use below is
on a nonempty list, mirroring a pandas max over a nonempty slice). -/
def listMax : List ℚ → ℚ
  | [] => 0
  | [a] => a
  | a :: b :: rest => max a (listMax (b :: rest))

/-- Insertion of one element into an ascending list, for modelling sorted(). -/
def insortQ (x : ℚ) : List ℚ → List ℚ
  | [] => [x]
  | y :: ys => if x ≤ y then x :: y :: ys else y :: insortQ x ys

/-- Ascending sort of a list of rationals, modelling the built-in sorted(). -/
def sortQ : List ℚ → List ℚ
  | [] => []
  | x :: xs => insortQ x (sortQ xs)

theorem insortQ_length (x : ℚ) (l : List ℚ) :
    (insortQ x l).length = l.length + 1 := by
  induction l with
  | nil => rfl
  | cons y ys ih =>
    simp only [insortQ]
    split <;> simp [ih]

theorem sortQ_length (l : List ℚ) : (sortQ l).length = l.length := by
  induction l with
  | nil => rfl
  | cons x xs ih => simp [sortQ, insortQ_length, ih]

/-! ## ATR (volatility measure)

Embedding of AccumulationZoneDetector._calculate_atr: true range per row
(the max skips the undefined previous close on the first row, as the pandas
row-wise max skips NaN), smoothed by an exponentially weighted mean with
alpha = 1/period, adjust=False and min_periods=period, so the first
period-1 entries are undefined (none).

The barrier labeler computes its volatility column through the external
pandas_ta call ta.atr. That collaborator is not part of the repository, so
it is modelled from the spec: a smoothed true-range average, undefined
until atr_period candles have elapsed, which is the same formula as the
repository's own _calculate_atr embedded here. -/

/-- True range list; the first argument is the previous Close, if any. -/
def trueRangeList : Option ℚ → List Candle → List ℚ
  | _, [] => []
  | none, r :: rest => (r.High - r.Low) :: trueRangeList (some r.Close) rest
  | some pc, r :: rest =>
      max (r.High - r.Low) (max |r.High - pc| |r.Low - pc|) ::
        trueRangeList (some r.Close) rest

/-- Recursion of the exponentially weighted mean with adjust=False. -/
def rmaAux (alpha prev : ℚ) : List ℚ → List ℚ
  | [] => []
  | x :: rest =>
    let y := (1 - alpha) * prev + alpha * x
    y :: rmaAux alpha y rest

/-- Exponentially weighted mean with adjust=False: the first output equals
the first observation. -/
def rmaList (alpha : ℚ) : List ℚ → List ℚ
  | [] => []
  | x :: rest => x :: rmaAux alpha x rest

/-- min_periods masking: entry i is defined once i+1 observations elapsed. -/
def minPeriodsMask (period : Nat) (l : List ℚ) : List (Option ℚ) :=
  l.enum.map (fun p => if period ≤ p.1 + 1 then some p.2 else none)

/-- The ATR column of a candle table. -/
def calc_atr (rows : List Candle) (period : Nat) : List (Option ℚ) :=
  minPeriodsMask period (rmaList (1 / (period : ℚ)) (trueRangeList none rows))

/-! ## Barrier labeler (potential_capture_engine.get_enhanced_triple_barrier_labels) -/

/-- The inner take-profit scan of one bar: iterate over
reversed(list(enumerate(tp_levels))) and assign label := j+1 whenever
High has reached tp_levels[j]; there is no break, so the last assignment
wins. The first argument is the bar's High. -/
def tpScanRev (high : ℚ) : List (Nat × ℚ) → Int → Int
  | [], label => label
  | (j, tp) :: rest, label => tpScanRev high rest (if high ≥ tp then (j : Int) + 1 else label)

/-- The take-profit scan over the enumerated, reversed tp_levels list. -/
def tpScan (tp_levels : List ℚ) (high : ℚ) (label : Int) : Int :=
  tpScanRev high tp_levels.enum.reverse label

/-- Drawdown from the highest High reached up to and including the bar that
touched the stop: (max_high - sl_level)/(max_high - entry) when
max_high > entry, else 0. -/
def drawdownOf (highest sl_level entry : ℚ) : ℚ :=
  if highest > entry then (highest - sl_level) / (highest - entry) else 0

/-- Scan of the price path of one event. highsSoFar collects the Highs of
the bars already scanned (the slice path_before_sl is highsSoFar plus the
current bar). A stop-loss touch breaks the scan with label 0 (excess
drawdown) or -1 (clean stop); otherwise the take-profit scan updates the
label and the walk continues. -/
def pathScan (sl_level entry drawdown_threshold : ℚ) (tp_levels : List ℚ) :
    List ℚ → List Candle → Int → Int
  | _, [], label => label
  | highsSoFar, bar :: rest, label =>
    let highsUpTo := highsSoFar ++ [bar.High]
    if bar.Low ≤ sl_level then
      if drawdownOf (listMax highsUpTo) sl_level entry > drawdown_threshold then 0 else -1
    else
      pathScan sl_level entry drawdown_threshold tp_levels highsUpTo rest
        (tpScan tp_levels bar.High label)

/-- Label of one event given its entry price, its ATR and its forward path
(the path starts at the event row itself). -/
def eventLabel (entry atr stop_loss_factor drawdown_threshold : ℚ)
    (profit_factors : List ℚ) (path : List Candle) : Int :=
  let sl_level := entry - atr * stop_loss_factor
  let tp_levels := sortQ (profit_factors.map (fun pf => entry + atr * pf))
  pathScan sl_level entry drawdown_threshold tp_levels [] path 0

/-- The full labeler: events are filtered to indices of the table; the label
series is initialized to 0, events with an undefined ATR are skipped and
keep the initial 0; the path is the forward slice of up to time_limit rows
starting at the event row. -/
def get_enhanced_triple_barrier_labels (prices : List Candle) (t_events : List Nat)
    (profit_factors : List ℚ) (stop_loss_factor : ℚ) (time_limit : Nat)
    (drawdown_threshold : ℚ) (atr_period : Nat) : List (Nat × Int) :=
  let atrCol := calc_atr prices atr_period
  (t_events.filter (fun i => i < prices.length)).map (fun i =>
    match atrCol.getD i none with
    | none => (i, 0)
    | some atr =>
      let entry := (prices.getD i default).Close
      let path := (prices.drop i).take time_limit
      (i, eventLabel entry atr stop_loss_factor drawdown_threshold profit_factors path))

/-! ## Labeler lemmas -/

theorem tpScanRev_cases (high : ℚ) (l : List (Nat × ℚ)) (label : Int) :
    tpScanRev high l label = label ∨
      ∃ q ∈ l, tpScanRev high l label = (q.1 : Int) + 1 := by
  induction l generalizing label with
  | nil => exact Or.inl rfl
  | cons q rest ih =>
    obtain ⟨j, tp⟩ := q
    have hstep : tpScanRev high ((j, tp) :: rest) label
        = tpScanRev high rest (if high ≥ tp then (j : Int) + 1 else label) := rfl
    rcases ih (if high ≥ tp then (j : Int) + 1 else label) with h | ⟨p, hp, he⟩
    · by_cases hc : high ≥ tp
      · exact Or.inr ⟨(j, tp), List.mem_cons_self _ _, by rw [hstep, h, if_pos hc]⟩
      · exact Or.inl (by rw [hstep, h, if_neg hc])
    · exact Or.inr ⟨p, List.mem_cons_of_mem _ hp, by rw [hstep]; exact he⟩

theorem tpScan_bound (tps : List ℚ) (high : ℚ) (label : Int)
    (h0 : 0 ≤ label) (h1 : label ≤ (tps.length : Int)) :
    0 ≤ tpScan tps high label ∧ tpScan tps high label ≤ (tps.length : Int) := by
  unfold tpScan
  rcases tpScanRev_cases high tps.enum.reverse label with h | ⟨q, hq, he⟩
  · rw [h]; exact ⟨h0, h1⟩
  · rw [he]
    obtain ⟨j, tp⟩ := q
    have hmem : (j, tp) ∈ List.enumFrom 0 tps := List.mem_reverse.mp hq
    have hlt : j < tps.length := by
      have h3 := List.mem_enumFrom hmem
      omega
    constructor
    · omega
    · omega

theorem pathScan_step (sl_level entry drawdown_threshold : ℚ) (tp_levels : List ℚ)
    (highsSoFar : List ℚ) (bar : Candle) (rest : List Candle) (label : Int) :
    pathScan sl_level entry drawdown_threshold tp_levels highsSoFar (bar :: rest) label
      = if bar.Low ≤ sl_level then
          if drawdownOf (listMax (highsSoFar ++ [bar.High])) sl_level entry
              > drawdown_threshold then 0 else -1
        else
          pathScan sl_level entry drawdown_threshold tp_levels (highsSoFar ++ [bar.High])
            rest (tpScan tp_levels bar.High label) := rfl

theorem pathScan_bound (sl_level entry drawdown_threshold : ℚ) (tp_levels : List ℚ)
    (bars : List Candle) :
    ∀ (highs : List ℚ) (label : Int), 0 ≤ label → label ≤ (tp_levels.length : Int) →
      -1 ≤ pathScan sl_level entry drawdown_threshold tp_levels highs bars label ∧
        pathScan sl_level entry drawdown_threshold tp_levels highs bars label
          ≤ (tp_levels.length : Int) := by
  induction bars with
  | nil => exact fun highs label h0 h1 => ⟨le_trans (by norm_num) h0, h1⟩
  | cons bar rest ih =>
    intro highs label h0 h1
    rw [pathScan_step]
    by_cases hsl : bar.Low ≤ sl_level
    · rw [if_pos hsl]
      by_cases hdd : drawdownOf (listMax (highs ++ [bar.High])) sl_level entry
          > drawdown_threshold
      · rw [if_pos hdd]; exact ⟨by norm_num, by omega⟩
      · rw [if_neg hdd]; exact ⟨le_refl _, by omega⟩
    · rw [if_neg hsl]
      have hb := tpScan_bound tp_levels bar.High label h0 h1
      exact ih _ _ hb.1 hb.2

theorem eventLabel_bound (entry atr stop_loss_factor drawdown_threshold : ℚ)
    (profit_factors : List ℚ) (path : List Candle) :
    -1 ≤ eventLabel entry atr stop_loss_factor drawdown_threshold profit_factors path ∧
      eventLabel entry atr stop_loss_factor drawdown_threshold profit_factors path
        ≤ (profit_factors.length : Int) := by
  unfold eventLabel
  have hlen : (sortQ (profit_factors.map (fun pf => entry + atr * pf))).length
      = profit_factors.length := by
    rw [sortQ_length, List.length_map]
  have hb := pathScan_bound (entry - atr * stop_loss_factor) entry drawdown_threshold
    (sortQ (profit_factors.map (fun pf => entry + atr * pf))) path [] 0 (le_refl 0)
    (by positivity)
  rw [hlen] at hb
  exact hb

/-! ## Claim theorems for the barrier labeler -/

/-- C1: evaluation of the embedded labeler at the spec's Scenario A
(entry=100, ATR=2, SL factor 1, profit factors [1,2], time limit 3, path
bars (H=101,L=99), (H=103,L=100), (H=105,L=102), stop never touched,
tier 2 reached on bar 3). The spec and the labeler's own docstring expect
label 2 (highest tier reached), but the inner take-profit scan has no
break: iterating tiers from highest to lowest it overwrites the label with
every reached tier, so the scan of a bar ends at the lowest reached tier
and the returned label is 1. -/
theorem C1_scenarioA_code_result :
    get_enhanced_triple_barrier_labels
      [⟨100, 100, 100, 100, 0⟩, ⟨100, 101, 99, 100, 5⟩,
        ⟨100, 103, 100, 101, 5⟩, ⟨100, 105, 102, 104, 5⟩]
      [1] [1, 2] 1 3 (1/2) 1 = [(1, 1)] := by
  norm_num [get_enhanced_triple_barrier_labels, calc_atr, minPeriodsMask, rmaList, rmaAux,
    trueRangeList, eventLabel, sortQ, insortQ, pathScan, tpScan, tpScanRev, listMax,
    drawdownOf, List.enum, List.enumFrom, List.filter, List.getD]

/-- C2 counterexample: the spec's Scenario B (entry=100, ATR=2, SL factor 1,
drawdown threshold 1/2, first path bar H=101, L=97) expects label -1, but
the maximum High up to and including the stop bar is 101 > entry, so the
computed drawdown is (101-98)/(101-100) = 3 > 1/2 and the code returns
label 0, not -1. -/
theorem C2_scenarioB_counterexample :
    get_enhanced_triple_barrier_labels
      [⟨100, 100, 100, 100, 0⟩, ⟨100, 101, 97, 100, 5⟩]
      [1] [1, 2] 1 3 (1/2) 2 = [(1, 0)] ∧
    get_enhanced_triple_barrier_labels
      [⟨100, 100, 100, 100, 0⟩, ⟨100, 101, 97, 100, 5⟩]
      [1] [1, 2] 1 3 (1/2) 2 ≠ [(1, -1)] := by
  constructor <;>
    norm_num [get_enhanced_triple_barrier_labels, calc_atr, minPeriodsMask, rmaList, rmaAux,
      trueRangeList, eventLabel, sortQ, insortQ, pathScan, tpScan, tpScanRev, listMax,
      drawdownOf, List.enum, List.enumFrom, List.filter, List.getD]

/-- C2 (amended): if the first path bar touches the stop-loss and no High up
to AND INCLUDING the stop bar exceeds the entry price (the code's maximum
is taken over the slice from the event through the stop bar, stop bar
included), then the computed drawdown is 0 and, for a nonnegative drawdown
threshold, the label is -1 (clean stop). -/
theorem C2_clean_stop_amended (entry atr stop_loss_factor drawdown_threshold : ℚ)
    (profit_factors : List ℚ) (bar : Candle) (rest : List Candle)
    (hsl : bar.Low ≤ entry - atr * stop_loss_factor)
    (hhigh : bar.High ≤ entry) (hddt : 0 ≤ drawdown_threshold) :
    drawdownOf (listMax [bar.High]) (entry - atr * stop_loss_factor) entry = 0 ∧
      eventLabel entry atr stop_loss_factor drawdown_threshold profit_factors
        (bar :: rest) = -1 := by
  have hmax : listMax ([] ++ [bar.High]) = bar.High := rfl
  have hdd : drawdownOf bar.High (entry - atr * stop_loss_factor) entry = 0 := by
    unfold drawdownOf
    rw [if_neg (not_lt.mpr hhigh)]
  refine ⟨hdd, ?_⟩
  unfold eventLabel
  rw [pathScan_step, if_pos hsl, hmax, hdd, if_neg (not_lt.mpr hddt)]

/-- C2 witness: the amended clean-stop theorem applied at a concrete input
(entry=100, ATR=2, SL factor 1, threshold 1/2, first bar H=100, L=97). -/
theorem C2_clean_stop_witness :
    eventLabel 100 2 1 (1/2) [1, 2] [⟨100, 100, 97, 98, 5⟩] = -1 :=
  (C2_clean_stop_amended 100 2 1 (1/2) [1, 2] ⟨100, 100, 97, 98, 5⟩ []
    (by norm_num) (by norm_num) (by norm_num)).2

/-- C5 counterexample: an event whose ATR is undefined (2-row table,
atr_period = 14, so the ATR column is [none, none]) is claimed to receive
no label in the returned series, but the returned series assigns it the
initial label 0. -/
theorem C5_skip_counterexample :
    calc_atr [⟨100, 100, 100, 100, 1⟩, ⟨100, 101, 99, 100, 1⟩] 14 = [none, none] ∧
      get_enhanced_triple_barrier_labels
        [⟨100, 100, 100, 100, 1⟩, ⟨100, 101, 99, 100, 1⟩]
        [1] [1, 2] 1 3 (1/2) 14 = [(1, 0)] := by
  constructor <;>
    norm_num [get_enhanced_triple_barrier_labels, calc_atr, minPeriodsMask, rmaList, rmaAux,
      trueRangeList, List.enum, List.enumFrom, List.filter, List.getD]

/-- C5 (amended): an event whose ATR is undefined at the event index is
skipped by the barrier walk, but it still appears in the returned series
with the initial label 0 (it is not absent from the series); the labeler
is a total function, so no exception is raised. -/
theorem C5_skip_amended (prices : List Candle) (t_events : List Nat)
    (profit_factors : List ℚ) (stop_loss_factor : ℚ) (time_limit : Nat)
    (drawdown_threshold : ℚ) (atr_period : Nat) (i : Nat)
    (hmem : i ∈ t_events) (hlen : i < prices.length)
    (hatr : (calc_atr prices atr_period).getD i none = none) :
    (i, 0) ∈ get_enhanced_triple_barrier_labels prices t_events profit_factors
      stop_loss_factor time_limit drawdown_threshold atr_period := by
  unfold get_enhanced_triple_barrier_labels
  refine List.mem_map.mpr ⟨i, List.mem_filter.mpr ⟨hmem, by simpa⟩, ?_⟩
  simp only [hatr]

/-- C5 witness: the amended skip theorem applied at the concrete 2-row
table with atr_period = 14. -/
theorem C5_skip_witness :
    (1, 0) ∈ get_enhanced_triple_barrier_labels
      [⟨100, 100, 100, 100, 1⟩, ⟨100, 101, 99, 100, 1⟩]
      [1] [1, 2] 1 3 (1/2) 14 :=
  C5_skip_amended _ _ _ _ _ _ _ 1 (by norm_num) (by norm_num)
    (by norm_num [calc_atr, minPeriodsMask, rmaList, rmaAux, trueRangeList,
      List.enum, List.enumFrom, List.getD])

/-- C10: every label the labeler assigns lies in {-1, 0, 1, ..., N} where
N = len(profit_factors): it is at least -1 and at most N. -/
theorem C10_label_range (prices : List Candle) (t_events : List Nat)
    (profit_factors : List ℚ) (stop_loss_factor : ℚ) (time_limit : Nat)
    (drawdown_threshold : ℚ) (atr_period : Nat) (p : Nat × Int)
    (hp : p ∈ get_enhanced_triple_barrier_labels prices t_events profit_factors
      stop_loss_factor time_limit drawdown_threshold atr_period) :
    -1 ≤ p.2 ∧ p.2 ≤ (profit_factors.length : Int) := by
  unfold get_enhanced_triple_barrier_labels at hp
  obtain ⟨i, _, heq⟩ := List.mem_map.mp hp
  rcases hmatch : (calc_atr prices atr_period).getD i none with _ | atr <;>
      simp only [hmatch] at heq
  · rw [← heq]
    exact ⟨by norm_num, by positivity⟩
  · rw [← heq]
    exact eventLabel_bound _ _ _ _ _ _

/-- C10 witness: the range theorem applied to a concrete run of the
labeler that returns label 1 for the event at index 1. -/
theorem C10_label_range_witness :
    ((1, 1) : Nat × Int) ∈ get_enhanced_triple_barrier_labels
      [⟨100, 100, 100, 100, 0⟩, ⟨100, 101, 99, 100, 5⟩,
        ⟨100, 103, 100, 101, 5⟩, ⟨100, 105, 102, 104, 5⟩]
      [1] [1, 2] 1 3 (1/2) 1 ∧
    -1 ≤ ((1, 1) : Nat × Int).2 ∧ ((1, 1) : Nat × Int).2 ≤ (([1, 2] : List ℚ).length : Int) := by
  have hmem : ((1, 1) : Nat × Int) ∈ get_enhanced_triple_barrier_labels
      [⟨100, 100, 100, 100, 0⟩, ⟨100, 101, 99, 100, 5⟩,
        ⟨100, 103, 100, 101, 5⟩, ⟨100, 105, 102, 104, 5⟩]
      [1] [1, 2] 1 3 (1/2) 1 := by
    norm_num [get_enhanced_triple_barrier_labels, calc_atr, minPeriodsMask, rmaList, rmaAux,
      trueRangeList, eventLabel, sortQ, insortQ, pathScan, tpScan, tpScanRev, listMax,
      drawdownOf, List.enum, List.enumFrom, List.filter, List.getD]
  exact ⟨hmem, C10_label_range _ _ _ _ _ _ _ _ hmem⟩

/-! ## Key-candle detector (signal_detector.SignalDetector.detect_key_candles) -/

/-- Percentile with linear interpolation of a list of values, the default
interpolation of a pandas rolling quantile; q is the quantile in [0,1]. -/
def quantileLinear (xs : List ℚ) (q : ℚ) : ℚ :=
  let s := sortQ xs
  let n := s.length
  if n = 0 then 0
  else
    let pos : ℚ := q * ((n : ℚ) - 1)
    let lo : Nat := (⌊pos⌋).toNat
    let frac : ℚ := pos - (lo : ℚ)
    if lo + 1 < n then s.getD lo 0 + frac * (s.getD (lo + 1) 0 - s.getD lo 0)
    else s.getD lo 0

/-- The trailing window of up to `window` values ending at position j. -/
def windowSlice (vols : List ℚ) (window j : Nat) : List ℚ :=
  (vols.take (j + 1)).drop (j + 1 - window)

/-- rolling(window=window, min_periods=minPeriods).quantile(q): entry j is
defined once the trailing observation count min(j+1, window) reaches
minPeriods. -/
def rollingQuantile (vols : List ℚ) (window minPeriods : Nat) (q : ℚ) :
    List (Option ℚ) :=
  (List.range vols.length).map (fun j =>
    if minPeriods ≤ min (j + 1) window then
      some (quantileLinear (windowSlice vols window j) q)
    else none)

/-- shift(1): every value moves one position later; the first entry becomes
undefined and the last value drops off. -/
def shiftOne : List (Option ℚ) → List (Option ℚ)
  | [] => []
  | x :: xs => none :: (x :: xs).dropLast

/-- The volume_threshold column: rolling percentile of Volume over the
trailing volume_lookback candles with min_periods = volume_lookback / 2,
shifted one position so the threshold for candle i excludes candle i. -/
def volume_threshold_col (df : List Candle) (volume_lookback : Nat)
    (volume_percentile_threshold : Nat) : List (Option ℚ) :=
  shiftOne (rollingQuantile (df.map Candle.Volume) volume_lookback
    (volume_lookback / 2) ((volume_percentile_threshold : ℚ) / 100))

/-- body_percentage of one candle: |Close - Open| / (High - Low) * 100 with a
zero range replaced by NaN and NaN filled with 100. -/
def body_percentage_row (r : Candle) : ℚ :=
  if r.High - r.Low = 0 then 100 else |r.Close - r.Open| / (r.High - r.Low) * 100

/-- Volume >= volume_threshold; a comparison against an undefined (NaN)
threshold is false in pandas. -/
def high_volume_condition (thr : Option ℚ) (vol : ℚ) : Bool :=
  match thr with
  | none => false
  | some t => t ≤ vol

/-- The is_key_candle column: high volume AND small body. -/
def detect_key_candles (df : List Candle) (volume_lookback : Nat)
    (volume_percentile_threshold : Nat) (body_percentile_threshold : Nat) :
    List Bool :=
  let thr := volume_threshold_col df volume_lookback volume_percentile_threshold
  (List.range df.length).map (fun i =>
    high_volume_condition (thr.getD i none) (df.getD i default).Volume
      && decide (body_percentage_row (df.getD i default) ≤ (body_percentile_threshold : ℚ)))

theorem shiftOne_length (l : List (Option ℚ)) : (shiftOne l).length = l.length := by
  match l with
  | [] => rfl
  | x :: xs => simp [shiftOne]

theorem rollingQuantile_length (vols : List ℚ) (window minPeriods : Nat) (q : ℚ) :
    (rollingQuantile vols window minPeriods q).length = vols.length := by
  simp [rollingQuantile]

theorem volume_threshold_col_length (df : List Candle)
    (volume_lookback volume_percentile_threshold : Nat) :
    (volume_threshold_col df volume_lookback volume_percentile_threshold).length
      = df.length := by
  unfold volume_threshold_col
  rw [shiftOne_length, rollingQuantile_length, List.length_map]

theorem rollingQuantile_getD (vols : List ℚ) (window minPeriods : Nat) (q : ℚ)
    (j : Nat) :
    (rollingQuantile vols window minPeriods q).getD j none =
      if j < vols.length ∧ minPeriods ≤ min (j + 1) window then
        some (quantileLinear (windowSlice vols window j) q)
      else none := by
  by_cases h : j < vols.length
  · simp only [rollingQuantile, List.getD_eq_getElem?_getD, List.getElem?_map,
      List.getElem?_range h, Option.map_some', Option.getD_some]
    by_cases h2 : minPeriods ≤ min (j + 1) window
    · rw [if_pos h2, if_pos ⟨h, h2⟩]
    · rw [if_neg h2, if_neg (fun hc => h2 hc.2)]
  · rw [List.getD_eq_default, if_neg (fun hc => h hc.1)]
    rw [rollingQuantile_length]
    exact Nat.le_of_not_lt h

theorem shiftOne_getD (l : List (Option ℚ)) (i : Nat) :
    (shiftOne l).getD i none =
      if 1 ≤ i ∧ i < l.length then l.getD (i - 1) none else none := by
  match l, i with
  | [], i => simp [shiftOne]
  | x :: xs, 0 => simp [shiftOne]
  | x :: xs, i + 1 =>
    simp only [shiftOne, List.getD_cons_succ]
    rw [List.getD_eq_getElem?_getD, List.getElem?_dropLast]
    by_cases h : i + 1 < (x :: xs).length
    · rw [if_pos (by simpa using h), if_pos ⟨Nat.le_add_left 1 i, h⟩]
      simp [List.getD_eq_getElem?_getD]
    · rw [if_neg (by simpa using h), if_neg (fun hc => h hc.2)]
      rfl

theorem volume_threshold_col_getD_none (df : List Candle)
    (volume_lookback volume_percentile_threshold i : Nat)
    (h : i < volume_lookback / 2) :
    (volume_threshold_col df volume_lookback volume_percentile_threshold).getD i none
      = none := by
  unfold volume_threshold_col
  rw [shiftOne_getD]
  by_cases h1 : 1 ≤ i ∧ i < (rollingQuantile (df.map Candle.Volume) volume_lookback
      (volume_lookback / 2) ((volume_percentile_threshold : ℚ) / 100)).length
  · rw [if_pos h1, rollingQuantile_getD]
    have : ¬ (volume_lookback / 2 ≤ min (i - 1 + 1) volume_lookback) := by
      have hi : i - 1 + 1 = i := Nat.succ_pred_eq_of_pos h1.1
      rw [hi]
      omega
    rw [if_neg (fun hc => this hc.2)]
  · rw [if_neg h1]

theorem detect_key_candles_getD (df : List Candle)
    (volume_lookback volume_percentile_threshold body_percentile_threshold i : Nat) :
    (detect_key_candles df volume_lookback volume_percentile_threshold
        body_percentile_threshold).getD i false
      = (high_volume_condition
            ((volume_threshold_col df volume_lookback volume_percentile_threshold).getD
              i none) (df.getD i default).Volume
          && decide (body_percentage_row (df.getD i default)
            ≤ (body_percentile_threshold : ℚ))) := by
  by_cases h : i < df.length
  · simp only [detect_key_candles, List.getD_eq_getElem?_getD, List.getElem?_map,
      List.getElem?_range h, Option.map_some', Option.getD_some]
  · have h1 : (detect_key_candles df volume_lookback volume_percentile_threshold
        body_percentile_threshold).getD i false = false := by
      rw [List.getD_eq_default]
      simpa [detect_key_candles] using Nat.le_of_not_lt h
    have h2 : (volume_threshold_col df volume_lookback volume_percentile_threshold).getD
        i none = none := by
      rw [List.getD_eq_default]
      rw [volume_threshold_col_length]
      exact Nat.le_of_not_lt h
    rw [h1, h2]
    rfl

/-- C6: a candle is flagged anomalous iff its Volume reaches the shifted
trailing rolling percentile threshold (which must be defined) AND its
body_percentage is at most the body threshold — never one condition
without the other; and no candle among the first volume_lookback / 2 rows,
where the shifted threshold is undefined, is ever flagged. -/
theorem C6_key_candle_iff (df : List Candle)
    (volume_lookback volume_percentile_threshold body_percentile_threshold i : Nat) :
    ((detect_key_candles df volume_lookback volume_percentile_threshold
        body_percentile_threshold).getD i false = true ↔
      (∃ t, (volume_threshold_col df volume_lookback volume_percentile_threshold).getD
          i none = some t ∧ t ≤ (df.getD i default).Volume)
        ∧ body_percentage_row (df.getD i default) ≤ (body_percentile_threshold : ℚ))
    ∧ (i < volume_lookback / 2 →
        (detect_key_candles df volume_lookback volume_percentile_threshold
          body_percentile_threshold).getD i false = false) := by
  constructor
  · rw [detect_key_candles_getD]
    rcases hthr : (volume_threshold_col df volume_lookback
        volume_percentile_threshold).getD i none with _ | t
    · simp [high_volume_condition]
    · simp [high_volume_condition]
  · intro hi
    rw [detect_key_candles_getD,
      volume_threshold_col_getD_none df volume_lookback volume_percentile_threshold i hi]
    rfl

/-- C6 witness: the early-row clause applied at a concrete input (a one-row
table, lookback 2, so row 0 lies among the first 2/2 = 1 rows and is not
flagged). -/
theorem C6_key_candle_witness :
    0 < 2 / 2 ∧ (detect_key_candles [⟨0, 1, 0, 1, 5⟩] 2 80 30).getD 0 false = false :=
  ⟨by decide, (C6_key_candle_iff [⟨0, 1, 0, 1, 5⟩] 2 80 30 0).2 (by decide)⟩

/-! ## Signal combiner (signal_combiner.SignalCombiner.combine) -/

/-- A row of the detector-annotated table, holding the columns the combiner
reads. -/
structure CombRow where
  is_key_candle : Bool
  in_accumulation_zone : Bool
  zone_quality_score : ℚ
  is_in_trend : Bool
  trend_r_squared : ℚ
  trend_slope : ℚ
  trend_direction : String
deriving Repr, DecidableEq, Inhabited

/-- The proximity window iloc[max(0, i - W) : i] of rows strictly before
row i. -/
def combWindow (rows : List CombRow) (proximity_lookback i : Nat) : List CombRow :=
  (rows.take i).drop (i - proximity_lookback)

/-- The is_triple_coincidence flag of row i: the row is a key candle and the
window before it contains a zone-flagged row and a trend-flagged row (the
code checks only the boolean columns; the coincident context columns it
also writes are not needed by any claim). -/
def is_triple_coincidence (rows : List CombRow) (proximity_lookback i : Nat) : Bool :=
  (rows.getD i default).is_key_candle
    && (combWindow rows proximity_lookback i).any (fun r => r.in_accumulation_zone)
    && (combWindow rows proximity_lookback i).any (fun r => r.is_in_trend)

/-- The combiner condition as worded by the spec (refinement target for C3):
at least one window row with zone quality at least Qz and at least one
window row with trend r-squared at least Qt. -/
def specCombinerMarks (rows : List CombRow) (proximity_lookback : Nat) (Qz Qt : ℚ)
    (i : Nat) : Prop :=
  (∃ r ∈ combWindow rows proximity_lookback i, Qz ≤ r.zone_quality_score)
    ∧ ∃ r ∈ combWindow rows proximity_lookback i, Qt ≤ r.trend_r_squared

/-- C3 counterexample: no configured pair of minimum-quality thresholds
(Qz, Qt) makes the spec's description match the code, because the code
tests only the boolean zone/trend membership flags and ignores the score
columns: a window row flagged as zone and trend but carrying
zone_quality_score = Qz - 1 is accepted by the code and rejected by the
spec's condition. -/
theorem C3_counterexample :
    ¬ ∃ Qz Qt : ℚ, ∀ (rows : List CombRow) (proximity_lookback i : Nat),
      (rows.getD i default).is_key_candle = true →
      (is_triple_coincidence rows proximity_lookback i = true ↔
        specCombinerMarks rows proximity_lookback Qz Qt i) := by
  rintro ⟨Qz, Qt, h⟩
  have h2 := (h [⟨false, true, Qz - 1, true, Qt, 0, "x"⟩,
      ⟨true, false, 0, false, 0, 0, "x"⟩] 8 1 rfl).mp rfl
  obtain ⟨⟨r, hr, hscore⟩, -⟩ := h2
  have hr1 : r = ⟨false, true, Qz - 1, true, Qt, 0, "x"⟩ := by
    simpa [combWindow] using hr
  rw [hr1] at hscore
  simp only at hscore
  linarith

/-- C3 (amended): the combiner marks a key candle at index i as a composite
event iff the window [max(0, i-W), i) of rows strictly before i contains
at least one row flagged in_accumulation_zone and at least one row flagged
is_in_trend; no minimum-quality thresholds are applied. -/
theorem C3_combiner_amended (rows : List CombRow) (proximity_lookback i : Nat) :
    is_triple_coincidence rows proximity_lookback i = true ↔
      (rows.getD i default).is_key_candle = true
        ∧ (∃ r ∈ combWindow rows proximity_lookback i, r.in_accumulation_zone = true)
        ∧ ∃ r ∈ combWindow rows proximity_lookback i, r.is_in_trend = true := by
  simp [is_triple_coincidence, List.any_eq_true, and_assoc]

/-! ## Event scorer (signal_scorer.SignalScorer) -/

/-- A composite-event row, holding the columns the scorer reads. -/
structure SignalRow where
  Volume : ℚ
  volume_threshold : ℚ
  body_percentage : ℚ
  coincident_zone_score : ℚ
  coincident_trend_r2 : ℚ
  coincident_trend_slope : ℚ
  coincident_trend_direction : String
deriving Repr, DecidableEq, Inhabited

/-- _normalize: clamp (value - lo)/(hi - lo) to [0, 1], neutral 1/2 when the
bounds coincide. -/
def normalizeScore (value min_val max_val : ℚ) : ℚ :=
  if max_val = min_val then 1/2
  else max 0 (min 1 ((value - min_val) / (max_val - min_val)))

/-- _score_candle: 60% volume score (threshold maps to 1/2, twice the
threshold to 1) plus 40% morphology tier. -/
def score_candle (row : SignalRow) : ℚ :=
  let vol_score := normalizeScore row.Volume row.volume_threshold (row.volume_threshold * 2)
  let morph_score : ℚ :=
    if 15 ≤ row.body_percentage ∧ row.body_percentage ≤ 40 then 1
    else if 40 < row.body_percentage ∧ row.body_percentage ≤ 60 then 8/10
    else if 5 < row.body_percentage ∧ row.body_percentage < 15 then 6/10
    else 3/10
  vol_score * (6/10) + morph_score * (4/10)

/-- _score_zone: normalize the zone quality score over [0.45, 0.85]. -/
def score_zone (zone_score_value : ℚ) : ℚ :=
  normalizeScore zone_score_value (45/100) (85/100)

/-- _score_trend: r-squared tier times direction factor times normalized
absolute slope, capped at 1.5. -/
def score_trend (trend_r2 : ℚ) (trend_direction : String) (trend_slope : ℚ) : ℚ :=
  let r2_score : ℚ := if trend_r2 ≥ 6/10 then 1 * (13/10)
    else if trend_r2 ≥ 45/100 then 1 else 1 * (9/10)
  let direction_factor : ℚ := if trend_direction = "alcista" then 115/100 else 9/10
  let slope_factor := normalizeScore |trend_slope| 0 (1/2)
  min (3/2) (r2_score * direction_factor * slope_factor)

/-- The six score columns the scorer writes for one composite-event row. -/
structure ScoreResult where
  candle_score : ℚ
  zone_score : ℚ
  trend_score : ℚ
  base_score : ℚ
  advanced_score : ℚ
  final_score : ℚ
deriving Repr, DecidableEq

/-- SignalScorer.score on one composite-event row. -/
def score_signal_row (row : SignalRow) : ScoreResult :=
  let candle_score := score_candle row
  let zone_score := score_zone row.coincident_zone_score
  let trend_score := score_trend row.coincident_trend_r2
    row.coincident_trend_direction row.coincident_trend_slope
  let base_score := candle_score * (30/100) + zone_score * (35/100) + trend_score * (35/100)
  let reliability_bonus : ℚ := if row.coincident_trend_r2 > 75/100 then 15/100 else 0
  let profit_potential : ℚ :=
    if row.coincident_trend_direction = "alcista" then
      if row.Volume > 80 then 85/100
      else if row.Volume > 50 then 75/100
      else 6/10
    else 6/10
  let advanced_score := reliability_bonus * (1/2) + profit_potential * (1/2)
  let final_score := base_score * (7/10) + advanced_score * (3/10)
  ⟨candle_score, zone_score, trend_score, base_score, advanced_score, final_score⟩

/-- C9: for every scored composite event, final_score = 0.7 * base_score +
0.3 * advanced_score, base_score = 0.30 * candle_score + 0.35 * zone_score
+ 0.35 * trend_score, and the trend score is capped at 1.5. -/
theorem C9_score_formula (row : SignalRow) :
    (score_signal_row row).final_score
        = (7/10) * (score_signal_row row).base_score
          + (3/10) * (score_signal_row row).advanced_score
      ∧ (score_signal_row row).base_score
        = (30/100) * (score_signal_row row).candle_score
          + (35/100) * (score_signal_row row).zone_score
          + (35/100) * (score_signal_row row).trend_score
      ∧ (score_signal_row row).trend_score ≤ 3/2 := by
  refine ⟨?_, ?_, ?_⟩
  · simp only [score_signal_row]
    ring
  · simp only [score_signal_row]
    ring
  · simp only [score_signal_row, score_trend]
    exact min_le_left _ _

/-! ## Trend detector (trend_detector.TrendDetector._calculate_segment_regression)

np.polyfit(x, y, 1) on x = 0..n-1 is the exact ordinary-least-squares
line, embedded by its closed form: slope = Sxy/Sxx and intercept =
ybar - slope * xbar, with the sums centered at the means. -/

/-- The Close value of the segment at position i. -/
def segClose (ys : List ℚ) (i : Nat) : ℚ := ys.getD i 0

/-- Mean of the x positions 0..n-1. -/
def olsXbar (n : Nat) : ℚ := (∑ i ∈ Finset.range n, (i : ℚ)) / n

/-- Mean of the Close values. -/
def olsYbar (ys : List ℚ) : ℚ :=
  (∑ i ∈ Finset.range ys.length, segClose ys i) / ys.length

/-- Centered sum of squares of the x positions. -/
def olsSxx (n : Nat) : ℚ := ∑ i ∈ Finset.range n, ((i : ℚ) - olsXbar n)^2

/-- Centered cross sum of x positions and Close values. -/
def olsSxy (ys : List ℚ) : ℚ :=
  ∑ i ∈ Finset.range ys.length,
    ((i : ℚ) - olsXbar ys.length) * (segClose ys i - olsYbar ys)

/-- The fitted slope coefficient. -/
def olsSlope (ys : List ℚ) : ℚ := olsSxy ys / olsSxx ys.length

/-- The fitted intercept. -/
def olsIntercept (ys : List ℚ) : ℚ :=
  olsYbar ys - olsSlope ys * olsXbar ys.length

/-- ss_total: sum of squared deviations of Close from its mean. -/
def ssTotal (ys : List ℚ) : ℚ :=
  ∑ i ∈ Finset.range ys.length, (segClose ys i - olsYbar ys)^2

/-- ss_residual: sum of squared deviations of Close from the fitted line. -/
def ssResidual (ys : List ℚ) : ℚ :=
  ∑ i ∈ Finset.range ys.length,
    (segClose ys i - (olsIntercept ys + olsSlope ys * i))^2

/-- The regression statistics of one segment. -/
structure SegStats where
  slope : ℚ
  r_squared : ℚ
  direction : String
deriving Repr, DecidableEq

/-- _calculate_segment_regression on the list of Close values of a segment:
degenerate segments (fewer than 2 rows) give (0, 0, flat); segments with
all Close values identical give (0, 1, flat); otherwise the OLS fit with
r_squared = 1 - ss_residual/ss_total when ss_total > 0, else 0, and
direction up iff the slope is positive. -/
def calculate_segment_regression (ys : List ℚ) : SegStats :=
  if ys.length < 2 then ⟨0, 0, "plana"⟩
  else if ∀ a ∈ ys, a = ys.headD 0 then ⟨0, 1, "plana"⟩
  else
    ⟨olsSlope ys,
      if ssTotal ys > 0 then 1 - ssResidual ys / ssTotal ys else 0,
      if olsSlope ys > 0 then "alcista" else "bajista"⟩

theorem olsSxx_pos (n : Nat) (hn : 2 ≤ n) : 0 < olsSxx n := by
  have hsum : (1 : ℚ) ≤ ∑ i ∈ Finset.range n, (i : ℚ) := by
    have h1 := Finset.single_le_sum (f := fun i : Nat => (i : ℚ))
      (fun i _ => by positivity) (Finset.mem_range.mpr (by omega : 1 < n))
    simpa using h1
  have hnpos : (0 : ℚ) < n := by
    have : (2 : ℚ) ≤ n := by exact_mod_cast hn
    linarith
  have hxbar : 0 < olsXbar n := div_pos (by linarith) hnpos
  have hterm : (0 : ℚ) < (((0 : Nat) : ℚ) - olsXbar n)^2 := by
    have heq : (((0 : Nat) : ℚ) - olsXbar n)^2 = olsXbar n ^ 2 := by
      push_cast
      ring
    rw [heq]
    exact pow_pos hxbar 2
  calc (0 : ℚ) < (((0 : Nat) : ℚ) - olsXbar n)^2 := hterm
    _ ≤ ∑ i ∈ Finset.range n, ((i : ℚ) - olsXbar n)^2 :=
        Finset.single_le_sum (f := fun i : Nat => ((i : ℚ) - olsXbar n)^2)
          (fun i _ => sq_nonneg _) (Finset.mem_range.mpr (by omega : 0 < n))

theorem ssResidual_eq (ys : List ℚ) (h : olsSxx ys.length ≠ 0) :
    ssResidual ys = ssTotal ys - (olsSxy ys)^2 / olsSxx ys.length := by
  have hterm : ∀ i ∈ Finset.range ys.length,
      (segClose ys i - (olsIntercept ys + olsSlope ys * i))^2
        = (segClose ys i - olsYbar ys)^2
          - 2 * olsSlope ys
            * (((i : ℚ) - olsXbar ys.length) * (segClose ys i - olsYbar ys))
          + (olsSlope ys)^2 * (((i : ℚ) - olsXbar ys.length))^2 := by
    intro i _
    unfold olsIntercept
    ring
  have hsum : ssResidual ys
      = ssTotal ys - 2 * olsSlope ys * olsSxy ys
        + (olsSlope ys)^2 * olsSxx ys.length := by
    unfold ssResidual
    rw [Finset.sum_congr rfl hterm, Finset.sum_add_distrib, Finset.sum_sub_distrib,
      ← Finset.mul_sum, ← Finset.mul_sum]
    rfl
  rw [hsum]
  unfold olsSlope
  field_simp
  ring

theorem ssResidual_nonneg (ys : List ℚ) : 0 ≤ ssResidual ys :=
  Finset.sum_nonneg fun _ _ => sq_nonneg _

/-- C8: the r_squared of every segment processed by the trend segmenter lies
in [0, 1] (stated for every list of Close values, which covers every
consecutive-pivot segment of at least the minimum bar count), and every
segment of at least 2 rows whose Close values are all identical receives
slope 0, r_squared 1 and the flat direction. -/
theorem C8_segment_regression (ys : List ℚ) :
    (0 ≤ (calculate_segment_regression ys).r_squared
      ∧ (calculate_segment_regression ys).r_squared ≤ 1)
    ∧ (2 ≤ ys.length → (∀ a ∈ ys, a = ys.headD 0) →
        calculate_segment_regression ys = ⟨0, 1, "plana"⟩) := by
  constructor
  · unfold calculate_segment_regression
    by_cases h1 : ys.length < 2
    · rw [if_pos h1]
      norm_num
    · rw [if_neg h1]
      by_cases h2 : ∀ a ∈ ys, a = ys.headD 0
      · rw [if_pos h2]
        norm_num
      · rw [if_neg h2]
        dsimp only
        by_cases h3 : ssTotal ys > 0
        · rw [if_pos h3]
          have hn : 2 ≤ ys.length := Nat.le_of_not_lt h1
          have hSxx := olsSxx_pos ys.length hn
          have hres := ssResidual_eq ys (ne_of_gt hSxx)
          have hdiv : 0 ≤ (olsSxy ys)^2 / olsSxx ys.length :=
            div_nonneg (sq_nonneg _) (le_of_lt hSxx)
          have hle : ssResidual ys ≤ ssTotal ys := by
            rw [hres]
            linarith
          have hone : ssResidual ys / ssTotal ys ≤ 1 := (div_le_one h3).mpr hle
          have hzero : 0 ≤ ssResidual ys / ssTotal ys :=
            div_nonneg (ssResidual_nonneg ys) (le_of_lt h3)
          constructor <;> linarith
        · rw [if_neg h3]
          norm_num
  · intro h1 h2
    unfold calculate_segment_regression
    rw [if_neg (Nat.not_lt.mpr h1), if_pos h2]

/-- C8 witness: the constant-segment clause applied at the concrete segment
[5, 5], together with the range clause at the same segment. -/
theorem C8_segment_regression_witness :
    2 ≤ ([5, 5] : List ℚ).length ∧ (∀ a ∈ ([5, 5] : List ℚ), a = ([5, 5] : List ℚ).headD 0)
      ∧ calculate_segment_regression [5, 5] = ⟨0, 1, "plana"⟩ := by
  refine ⟨by norm_num, ?_, ?_⟩
  · intro a ha
    rcases List.mem_cons.mp ha with h | h
    · simpa using h
    · simpa using h
  · exact (C8_segment_regression [5, 5]).2 (by norm_num) (by
      intro a ha
      rcases List.mem_cons.mp ha with h | h
      · simpa using h
      · simpa using h)

/-! ## Accumulation-zone detector (accumulation_zone_detector.AccumulationZoneDetector.detect)

The left-to-right pass is embedded as an explicit fold whose state is an
Option ZoneState: by construction at most one zone is open at any point of
the pass. Rows whose ATR or volume moving average is undefined are skipped
without touching the state, exactly as the loop's continue does. -/

/-- A row of the table as the zone detector reads it: prices, volume and the
two precomputed columns. -/
structure ZRow where
  High : ℚ
  Low : ℚ
  Volume : ℚ
  atr : Option ℚ
  volume_ma : Option ℚ
deriving Repr, DecidableEq, Inhabited

/-- The mutable dictionary current_zone of the loop. -/
structure ZoneState where
  start_idx : Nat
  price_high : ℚ
  price_low : ℚ
  volume_sum : ℚ
  periods : Nat
deriving Repr, DecidableEq

/-- A finalized zone; stop_idx is exclusive: the zone marks the rows of
[start_idx, stop_idx) (loc[start : i-1] on a break at i, loc[start : end]
at the end of the series). -/
structure Zone where
  start_idx : Nat
  stop_idx : Nat
  price_high : ℚ
  price_low : ℚ
  volume_sum : ℚ
  periods : Nat
  quality_score : ℚ
deriving Repr, DecidableEq

/-- The three scalar parameters of the pass. -/
structure ZoneConfig where
  volume_threshold : ℚ
  atr_multiplier : ℚ
  min_zone_periods : Nat
deriving Repr, DecidableEq

/-- _calculate_zone_quality on the slice df.iloc[start:end] of the zone.
The pandas column means skip undefined entries; a slice whose atr or
volume_ma values are all undefined would give a NaN score, which cannot
arise for a zone produced by the pass (its first row has both defined),
and is mapped to 0 here. -/
def zone_quality (slice : List ZRow) (z : ZoneState) : ℚ :=
  if slice.length = 0 ∨ z.periods = 0 then 0
  else
    let atrs := slice.filterMap ZRow.atr
    let vmas := slice.filterMap ZRow.volume_ma
    if atrs.length = 0 ∨ vmas.length = 0 then 0
    else
      let avg_atr := atrs.sum / atrs.length
      let avg_vol_ma := vmas.sum / vmas.length
      if avg_atr = 0 ∨ avg_vol_ma = 0 then 0
      else
        let volume_factor := z.volume_sum / (avg_vol_ma * z.periods)
        let price_range_vs_atr := (z.price_high - z.price_low) / avg_atr
        let time_factor := min 1 ((z.periods : ℚ) / 20)
        let price_factor := 1 / (price_range_vs_atr + 1/1000000)
        min 2 (volume_factor * (4/10) + price_factor * (4/10) + time_factor * (2/10))

/-- Closing a zone at the exclusive stop index: quality is computed over the
slice df.iloc[start:stop]. -/
def zoneFinalize (table : List ZRow) (z : ZoneState) (stop : Nat) : Zone :=
  { start_idx := z.start_idx, stop_idx := stop, price_high := z.price_high,
    price_low := z.price_low, volume_sum := z.volume_sum, periods := z.periods,
    quality_score := zone_quality ((table.drop z.start_idx).take (stop - z.start_idx)) z }

/-- Opening a zone at row i. -/
def zoneOpen (i : Nat) (row : ZRow) : ZoneState :=
  ⟨i, row.High, row.Low, row.Volume, 1⟩

/-- One iteration of the loop at row index i. -/
def zoneStep (cfg : ZoneConfig) (table : List ZRow) (i : Nat) (row : ZRow)
    (acc : Option ZoneState × List Zone) : Option ZoneState × List Zone :=
  match row.atr, row.volume_ma with
  | some a, some vma =>
    let volume_condition := row.Volume > vma * cfg.volume_threshold
    match acc.1 with
    | none => (if volume_condition then some (zoneOpen i row) else none, acc.2)
    | some z =>
      let current_high := max z.price_high row.High
      let current_low := min z.price_low row.Low
      if current_high - current_low ≤ a * cfg.atr_multiplier then
        (some ⟨z.start_idx, current_high, current_low,
          z.volume_sum + row.Volume, z.periods + 1⟩, acc.2)
      else
        (if volume_condition then some (zoneOpen i row) else none,
          if cfg.min_zone_periods ≤ z.periods then acc.2 ++ [zoneFinalize table z i]
          else acc.2)
  | _, _ => acc

/-- The loop over the remaining rows, with i the index of the next row. -/
def zoneLoop (cfg : ZoneConfig) (table : List ZRow) :
    Nat → List ZRow → Option ZoneState × List Zone → Option ZoneState × List Zone
  | _, [], acc => acc
  | i, row :: rest, acc => zoneLoop cfg table (i + 1) rest (zoneStep cfg table i row acc)

/-- The state and zones after processing the first k rows of the table. -/
def zoneScanPrefix (cfg : ZoneConfig) (table : List ZRow) (k : Nat) :
    Option ZoneState × List Zone :=
  zoneLoop cfg table 0 (table.take k) (none, [])

/-- The finalized zones of the full pass: the loop over all rows, then the
end-of-series finalization of a still-open zone meeting the minimum. -/
def zoneDetect (cfg : ZoneConfig) (table : List ZRow) : List Zone :=
  match zoneLoop cfg table 0 table (none, []) with
  | (some z, zs) =>
      if cfg.min_zone_periods ≤ z.periods then zs ++ [zoneFinalize table z table.length]
      else zs
  | (none, zs) => zs

/-- rolling(window, min_periods).mean(). -/
def rollingMean (vols : List ℚ) (window minPeriods : Nat) : List (Option ℚ) :=
  (List.range vols.length).map (fun j =>
    if minPeriods ≤ min (j + 1) window then
      some ((windowSlice vols window j).sum / ((windowSlice vols window j).length : ℚ))
    else none)

/-- The annotated rows the zone detector works on: the candle columns plus
the ATR column and the volume moving average shifted one candle back. -/
def buildZRows (candles : List Candle) (volume_ma_period atr_period : Nat) : List ZRow :=
  let atrs := calc_atr candles atr_period
  let vmas := shiftOne (rollingMean (candles.map Candle.Volume) volume_ma_period
    (volume_ma_period / 2))
  (List.range candles.length).map (fun i =>
    ⟨(candles.getD i default).High, (candles.getD i default).Low,
      (candles.getD i default).Volume, atrs.getD i none, vmas.getD i none⟩)

/-- AccumulationZoneDetector.detect, reduced to the zones it finalizes (the
in_accumulation_zone / zone_quality_score columns are the projection of
these zones onto the rows). -/
def AccumulationZoneDetector_detect (candles : List Candle)
    (volume_threshold atr_multiplier : ℚ)
    (min_zone_periods volume_ma_period atr_period : Nat) : List Zone :=
  zoneDetect ⟨volume_threshold, atr_multiplier, min_zone_periods⟩
    (buildZRows candles volume_ma_period atr_period)

/-! ## Zone pass invariants -/

/-- Invariant of the pass after the first k rows: every finalized zone meets
the minimum period count, spans a nonempty index range ending at or before
k, finalized zones are pairwise ordered and disjoint, and an open zone
started before k, after every finalized zone. -/
def ZoneInv (min_periods k : Nat) (acc : Option ZoneState × List Zone) : Prop :=
  (∀ z ∈ acc.2, min_periods ≤ z.periods ∧ z.start_idx < z.stop_idx ∧ z.stop_idx ≤ k)
    ∧ acc.2.Pairwise (fun a b => a.stop_idx ≤ b.start_idx)
    ∧ ∀ s, acc.1 = some s → s.start_idx < k ∧ ∀ z ∈ acc.2, z.stop_idx ≤ s.start_idx

/-- Price invariant: finalized zones and any open zone have
price_low ≤ price_high. -/
def ZonePriceInv (acc : Option ZoneState × List Zone) : Prop :=
  (∀ z ∈ acc.2, z.price_low ≤ z.price_high)
    ∧ ∀ s, acc.1 = some s → s.price_low ≤ s.price_high

theorem ZoneInv_mono (m k k2 : Nat) (acc : Option ZoneState × List Zone)
    (hk : k ≤ k2) (h : ZoneInv m k acc) : ZoneInv m k2 acc := by
  obtain ⟨hz, hpw, hopen⟩ := h
  exact ⟨fun z hzz => ⟨(hz z hzz).1, (hz z hzz).2.1, le_trans (hz z hzz).2.2 hk⟩, hpw,
    fun s hs => ⟨lt_of_lt_of_le (hopen s hs).1 hk, (hopen s hs).2⟩⟩

theorem zoneStep_inv (cfg : ZoneConfig) (table : List ZRow) (i : Nat) (row : ZRow)
    (acc : Option ZoneState × List Zone) (h : ZoneInv cfg.min_zone_periods i acc) :
    ZoneInv cfg.min_zone_periods (i + 1) (zoneStep cfg table i row acc) := by
  obtain ⟨st, zs⟩ := acc
  obtain ⟨hz, hpw, hopen⟩ := h
  obtain ⟨rH, rL, rV, rA, rMA⟩ := row
  have hmono : ZoneInv cfg.min_zone_periods (i + 1) (st, zs) :=
    ZoneInv_mono _ i (i + 1) _ (Nat.le_succ i) ⟨hz, hpw, hopen⟩
  rcases rA with _ | a
  · exact hmono
  rcases rMA with _ | vma
  · exact hmono
  rcases st with _ | z
  · dsimp only [zoneStep]
    by_cases hvc : rV > vma * cfg.volume_threshold
    · rw [if_pos hvc]
      refine ⟨fun w hw => ⟨(hz w hw).1, (hz w hw).2.1, le_trans (hz w hw).2.2 (Nat.le_succ i)⟩,
        hpw, fun s hs => ?_⟩
      have hse : zoneOpen i ⟨rH, rL, rV, some a, some vma⟩ = s := Option.some.inj hs
      rw [← hse]
      exact ⟨Nat.lt_succ_self i, fun w hw => (hz w hw).2.2⟩
    · rw [if_neg hvc]
      exact ZoneInv_mono _ i (i + 1) (none, zs) (Nat.le_succ i) ⟨hz, hpw, fun s hs => by cases hs⟩
  · dsimp only [zoneStep]
    by_cases hext : max z.price_high rH - min z.price_low rL ≤ a * cfg.atr_multiplier
    · rw [if_pos hext]
      refine ⟨fun w hw => ⟨(hz w hw).1, (hz w hw).2.1, le_trans (hz w hw).2.2 (Nat.le_succ i)⟩,
        hpw, fun s hs => ?_⟩
      have hse := Option.some.inj hs
      rw [← hse]
      have hkey := hopen z rfl
      exact ⟨Nat.lt_succ_of_lt hkey.1, fun w hw => (hkey.2 w hw)⟩
    · rw [if_neg hext]
      have hkey := hopen z rfl
      by_cases hmin : cfg.min_zone_periods ≤ z.periods
      · rw [if_pos hmin]
        have hzones : ∀ w ∈ zs ++ [zoneFinalize table z i],
            cfg.min_zone_periods ≤ w.periods ∧ w.start_idx < w.stop_idx
              ∧ w.stop_idx ≤ i + 1 := by
          intro w hw
          rcases List.mem_append.mp hw with hw1 | hw1
          · exact ⟨(hz w hw1).1, (hz w hw1).2.1, le_trans (hz w hw1).2.2 (Nat.le_succ i)⟩
          · have : w = zoneFinalize table z i := List.mem_singleton.mp hw1
            rw [this]
            exact ⟨hmin, hkey.1, Nat.le_succ i⟩
        have hpw2 : (zs ++ [zoneFinalize table z i]).Pairwise
            (fun a b => a.stop_idx ≤ b.start_idx) := by
          rw [List.pairwise_append]
          refine ⟨hpw, List.pairwise_singleton _ _, fun w hw b hb => ?_⟩
          have : b = zoneFinalize table z i := List.mem_singleton.mp hb
          rw [this]
          exact hkey.2 w hw
        have hstops : ∀ w ∈ zs ++ [zoneFinalize table z i], w.stop_idx ≤ i := by
          intro w hw
          rcases List.mem_append.mp hw with hw1 | hw1
          · exact (hz w hw1).2.2
          · have : w = zoneFinalize table z i := List.mem_singleton.mp hw1
            rw [this]
            exact le_refl i
        by_cases hvc : rV > vma * cfg.volume_threshold
        · rw [if_pos hvc]
          refine ⟨hzones, hpw2, fun s hs => ?_⟩
          have hse : zoneOpen i ⟨rH, rL, rV, some a, some vma⟩ = s := Option.some.inj hs
          rw [← hse]
          exact ⟨Nat.lt_succ_self i, hstops⟩
        · rw [if_neg hvc]
          exact ⟨hzones, hpw2, fun s hs => by cases hs⟩
      · rw [if_neg hmin]
        by_cases hvc : rV > vma * cfg.volume_threshold
        · rw [if_pos hvc]
          refine ⟨fun w hw => ⟨(hz w hw).1, (hz w hw).2.1,
            le_trans (hz w hw).2.2 (Nat.le_succ i)⟩, hpw, fun s hs => ?_⟩
          have hse : zoneOpen i ⟨rH, rL, rV, some a, some vma⟩ = s := Option.some.inj hs
          rw [← hse]
          exact ⟨Nat.lt_succ_self i, fun w hw => (hz w hw).2.2⟩
        · rw [if_neg hvc]
          exact ⟨fun w hw => ⟨(hz w hw).1, (hz w hw).2.1,
            le_trans (hz w hw).2.2 (Nat.le_succ i)⟩, hpw, fun s hs => by cases hs⟩

theorem zoneStep_price_inv (cfg : ZoneConfig) (table : List ZRow) (i : Nat) (row : ZRow)
    (acc : Option ZoneState × List Zone) (hrow : row.Low ≤ row.High)
    (h : ZonePriceInv acc) : ZonePriceInv (zoneStep cfg table i row acc) := by
  obtain ⟨st, zs⟩ := acc
  obtain ⟨hz, hopen⟩ := h
  obtain ⟨rH, rL, rV, rA, rMA⟩ := row
  rcases rA with _ | a
  · exact ⟨hz, hopen⟩
  rcases rMA with _ | vma
  · exact ⟨hz, hopen⟩
  rcases st with _ | z
  · dsimp only [zoneStep]
    by_cases hvc : rV > vma * cfg.volume_threshold
    · rw [if_pos hvc]
      refine ⟨hz, fun s hs => ?_⟩
      have hse : zoneOpen i ⟨rH, rL, rV, some a, some vma⟩ = s := Option.some.inj hs
      rw [← hse]
      exact hrow
    · rw [if_neg hvc]
      exact ⟨hz, fun s hs => by cases hs⟩
  · dsimp only [zoneStep]
    have hzp := hopen z rfl
    by_cases hext : max z.price_high rH - min z.price_low rL ≤ a * cfg.atr_multiplier
    · rw [if_pos hext]
      refine ⟨hz, fun s hs => ?_⟩
      have hse := Option.some.inj hs
      rw [← hse]
      calc min z.price_low rL ≤ z.price_low := min_le_left _ _
        _ ≤ z.price_high := hzp
        _ ≤ max z.price_high rH := le_max_left _ _
    · rw [if_neg hext]
      have hz2 : ∀ w ∈ (if cfg.min_zone_periods ≤ z.periods
          then zs ++ [zoneFinalize table z i] else zs), w.price_low ≤ w.price_high := by
        by_cases hmin : cfg.min_zone_periods ≤ z.periods
        · rw [if_pos hmin]
          intro w hw
          rcases List.mem_append.mp hw with hw1 | hw1
          · exact hz w hw1
          · have : w = zoneFinalize table z i := List.mem_singleton.mp hw1
            rw [this]
            exact hzp
        · rw [if_neg hmin]
          exact hz
      by_cases hvc : rV > vma * cfg.volume_threshold
      · rw [if_pos hvc]
        refine ⟨hz2, fun s hs => ?_⟩
        have hse : zoneOpen i ⟨rH, rL, rV, some a, some vma⟩ = s := Option.some.inj hs
        rw [← hse]
        exact hrow
      · rw [if_neg hvc]
        exact ⟨hz2, fun s hs => by cases hs⟩

theorem zoneLoop_inv (cfg : ZoneConfig) (table : List ZRow) (rest : List ZRow) :
    ∀ (i : Nat) (acc : Option ZoneState × List Zone),
      ZoneInv cfg.min_zone_periods i acc →
      ZoneInv cfg.min_zone_periods (i + rest.length) (zoneLoop cfg table i rest acc) := by
  induction rest with
  | nil => intro i acc h; simpa [zoneLoop] using h
  | cons row rest ih =>
    intro i acc h
    have h2 := ih (i + 1) _ (zoneStep_inv cfg table i row acc h)
    have harith : i + (row :: rest).length = (i + 1) + rest.length := by
      simp only [List.length_cons]
      omega
    rw [harith]
    exact h2

theorem zoneLoop_price_inv (cfg : ZoneConfig) (table : List ZRow) (rest : List ZRow) :
    ∀ (i : Nat) (acc : Option ZoneState × List Zone),
      (∀ r ∈ rest, r.Low ≤ r.High) → ZonePriceInv acc →
      ZonePriceInv (zoneLoop cfg table i rest acc) := by
  induction rest with
  | nil => intro i acc _ h; simpa [zoneLoop] using h
  | cons row rest ih =>
    intro i acc hrows h
    exact ih (i + 1) _ (fun r hr => hrows r (List.mem_cons_of_mem _ hr))
      (zoneStep_price_inv cfg table i row acc (hrows row (List.mem_cons_self _ _)) h)

theorem buildZRows_low_le_high (candles : List Candle)
    (volume_ma_period atr_period : Nat) (hrows : ∀ r ∈ candles, r.Low ≤ r.High) :
    ∀ r ∈ buildZRows candles volume_ma_period atr_period, r.Low ≤ r.High := by
  intro r hr
  obtain ⟨i, hi, heq⟩ := List.mem_map.mp hr
  have hilt : i < candles.length := List.mem_range.mp hi
  rw [← heq]
  simp only
  rw [List.getD_eq_getElem candles default hilt]
  exact hrows _ (List.getElem_mem hilt)

/-- C7: for the zones finalized by the accumulation-zone pass (whose state
is an Option ZoneState, so at most one zone is open at any point of the
left-to-right pass by construction): every finalized zone has at least the
configured minimum period count, satisfies price_low ≤ price_high and
spans a nonempty index range; the finalized zones are pairwise ordered
and disjoint (no candle belongs to two finalized zones); and after every
prefix of the pass an open zone satisfies price_low ≤ price_high. The
price statements assume Low ≤ High on every input row. -/
theorem C7_zone_invariants (candles : List Candle)
    (volume_threshold atr_multiplier : ℚ)
    (min_zone_periods volume_ma_period atr_period : Nat)
    (hrows : ∀ r ∈ candles, r.Low ≤ r.High) :
    (∀ z ∈ AccumulationZoneDetector_detect candles volume_threshold atr_multiplier
        min_zone_periods volume_ma_period atr_period,
      min_zone_periods ≤ z.periods ∧ z.price_low ≤ z.price_high
        ∧ z.start_idx < z.stop_idx)
    ∧ (AccumulationZoneDetector_detect candles volume_threshold atr_multiplier
        min_zone_periods volume_ma_period atr_period).Pairwise
        (fun a b => a.stop_idx ≤ b.start_idx)
    ∧ ∀ (k : Nat) (s : ZoneState),
        (zoneScanPrefix ⟨volume_threshold, atr_multiplier, min_zone_periods⟩
          (buildZRows candles volume_ma_period atr_period) k).1 = some s →
        s.price_low ≤ s.price_high := by
  have hzl := buildZRows_low_le_high candles volume_ma_period atr_period hrows
  have hInit : ZoneInv min_zone_periods 0 ((none : Option ZoneState), ([] : List Zone)) :=
    ⟨by simp, List.Pairwise.nil, fun s hs => by cases hs⟩
  have hPrInit : ZonePriceInv ((none : Option ZoneState), ([] : List Zone)) :=
    ⟨by simp, fun s hs => by cases hs⟩
  rcases hres : zoneLoop ⟨volume_threshold, atr_multiplier, min_zone_periods⟩
      (buildZRows candles volume_ma_period atr_period) 0
      (buildZRows candles volume_ma_period atr_period) (none, []) with ⟨st, zs⟩
  have hInv : ZoneInv min_zone_periods
      (buildZRows candles volume_ma_period atr_period).length (st, zs) := by
    have h2 := zoneLoop_inv ⟨volume_threshold, atr_multiplier, min_zone_periods⟩
      (buildZRows candles volume_ma_period atr_period)
      (buildZRows candles volume_ma_period atr_period) 0 (none, []) hInit
    rw [hres] at h2
    simpa using h2
  have hPr : ZonePriceInv (st, zs) := by
    have h2 := zoneLoop_price_inv ⟨volume_threshold, atr_multiplier, min_zone_periods⟩
      (buildZRows candles volume_ma_period atr_period)
      (buildZRows candles volume_ma_period atr_period) 0 (none, []) hzl hPrInit
    rw [hres] at h2
    exact h2
  obtain ⟨hz, hpw, hopen⟩ := hInv
  obtain ⟨hzp, hop⟩ := hPr
  refine ⟨?_, ?_, ?_⟩
  · unfold AccumulationZoneDetector_detect zoneDetect
    rw [hres]
    rcases st with _ | z
    · exact fun w hw => ⟨(hz w hw).1, hzp w hw, (hz w hw).2.1⟩
    · have hkey := hopen z rfl
      have hzph := hop z rfl
      dsimp only
      by_cases hmin : min_zone_periods ≤ z.periods
      · rw [if_pos hmin]
        intro w hw
        rcases List.mem_append.mp hw with hw1 | hw1
        · exact ⟨(hz w hw1).1, hzp w hw1, (hz w hw1).2.1⟩
        · have hwe : w = zoneFinalize (buildZRows candles volume_ma_period atr_period) z
              (buildZRows candles volume_ma_period atr_period).length :=
            List.mem_singleton.mp hw1
          rw [hwe]
          exact ⟨hmin, hzph, hkey.1⟩
      · rw [if_neg hmin]
        exact fun w hw => ⟨(hz w hw).1, hzp w hw, (hz w hw).2.1⟩
  · unfold AccumulationZoneDetector_detect zoneDetect
    rw [hres]
    rcases st with _ | z
    · exact hpw
    · have hkey := hopen z rfl
      dsimp only
      by_cases hmin : min_zone_periods ≤ z.periods
      · rw [if_pos hmin]
        rw [List.pairwise_append]
        refine ⟨hpw, List.pairwise_singleton _ _, fun w hw b hb => ?_⟩
        have hbe : b = zoneFinalize (buildZRows candles volume_ma_period atr_period) z
            (buildZRows candles volume_ma_period atr_period).length :=
          List.mem_singleton.mp hb
        rw [hbe]
        exact hkey.2 w hw
      · rw [if_neg hmin]
        exact hpw
  · intro k s hS
    have h2 := zoneLoop_price_inv ⟨volume_threshold, atr_multiplier, min_zone_periods⟩
      (buildZRows candles volume_ma_period atr_period)
      ((buildZRows candles volume_ma_period atr_period).take k) 0 (none, [])
      (fun r hr => hzl r (List.mem_of_mem_take hr)) hPrInit
    exact h2.2 s hS

/-- C7 witness: the zone invariants applied at a concrete three-candle table
(volume multiplier 1, ATR multiplier 10, minimum 2 periods, volume-MA
window 1, ATR period 1), whose rows all satisfy Low ≤ High. -/
theorem C7_zone_invariants_witness :
    (∀ z ∈ AccumulationZoneDetector_detect
        [⟨100, 101, 100, 100, 10⟩, ⟨100, 101, 100, 100, 20⟩, ⟨100, 101, 100, 100, 30⟩]
        1 10 2 1 1,
      2 ≤ z.periods ∧ z.price_low ≤ z.price_high ∧ z.start_idx < z.stop_idx)
    ∧ (AccumulationZoneDetector_detect
        [⟨100, 101, 100, 100, 10⟩, ⟨100, 101, 100, 100, 20⟩, ⟨100, 101, 100, 100, 30⟩]
        1 10 2 1 1).Pairwise (fun a b => a.stop_idx ≤ b.start_idx)
    ∧ ∀ (k : Nat) (s : ZoneState),
        (zoneScanPrefix ⟨1, 10, 2⟩ (buildZRows
          [⟨100, 101, 100, 100, 10⟩, ⟨100, 101, 100, 100, 20⟩, ⟨100, 101, 100, 100, 30⟩]
          1 1) k).1 = some s →
        s.price_low ≤ s.price_high :=
  C7_zone_invariants
    [⟨100, 101, 100, 100, 10⟩, ⟨100, 101, 100, 100, 20⟩, ⟨100, 101, 100, 100, 30⟩]
    1 10 2 1 1 (by
      intro r hr
      fin_cases hr <;> norm_num)

/-! ## Frame effects of the pipeline stages (C4)

Python passes the candle table by reference, so each stage is embedded as
returning, besides its result, the caller's table object as it stands
after the call. The five detector/combiner/scorer stages start with
df.copy() and write only to the copy, so their effect on the caller's
table is the identity. The barrier labeler instead executes
prices['atr'] = ta.atr(...) on the caller's table itself before any copy,
writing the ATR column into it. -/

/-- A table object as the labeler's caller holds it: candle rows plus an
optional atr column (none when the caller's table has no atr column yet). -/
structure PricesTable where
  rows : List Candle
  atrCol : Option (List (Option ℚ))
deriving Repr, DecidableEq

/-- detect_key_candles: df = df.copy() (line 33), every write targets the
copy, the caller's table is untouched. -/
def detect_key_candles_callerAfter (df : List Candle) : List Candle := df

/-- AccumulationZoneDetector.detect: df_res = df.copy() (line 53), writes go
to df_res only. -/
def zone_detect_callerAfter (df : List Candle) : List Candle := df

/-- TrendDetector.detect: df_res = df.copy() (line 102), writes go to
df_res only. -/
def trend_detect_callerAfter (df : List Candle) : List Candle := df

/-- SignalCombiner.combine: df_res = df.copy() (line 41), writes go to
df_res only. -/
def combine_callerAfter (df : List CombRow) : List CombRow := df

/-- SignalScorer.score: df_res = df.copy() (line 76), writes go to df_res
only. -/
def score_callerAfter (df : List SignalRow) : List SignalRow := df

/-- get_enhanced_triple_barrier_labels line 41: prices['atr'] = ta.atr(...)
writes the computed ATR column into the caller's table. -/
def labeler_callerAfter (p : PricesTable) (atr_period : Nat) : PricesTable :=
  ⟨p.rows, some (calc_atr p.rows atr_period)⟩

/-- C4 counterexample: the barrier labeler does not leave the caller's table
unchanged: on a one-row table without an atr column it writes the atr
column into it. -/
theorem C4_counterexample :
    labeler_callerAfter ⟨[⟨100, 101, 99, 100, 5⟩], none⟩ 1
      ≠ ⟨[⟨100, 101, 99, 100, 5⟩], none⟩ := by
  intro h
  have h2 := congrArg PricesTable.atrCol h
  simp [labeler_callerAfter] at h2

/-- C4 (amended): the key-candle detector, zone detector, trend detector,
combiner and scorer each leave the caller's table unchanged (they copy
first and write only to the copy); the barrier labeler writes the
computed atr column into the caller's table, changing any table that does
not already carry exactly that column. -/
theorem C4_caller_tables :
    (∀ df : List Candle, detect_key_candles_callerAfter df = df)
    ∧ (∀ df : List Candle, zone_detect_callerAfter df = df)
    ∧ (∀ df : List Candle, trend_detect_callerAfter df = df)
    ∧ (∀ df : List CombRow, combine_callerAfter df = df)
    ∧ (∀ df : List SignalRow, score_callerAfter df = df)
    ∧ ∀ (p : PricesTable) (atr_period : Nat), p.atrCol = none →
        labeler_callerAfter p atr_period ≠ p := by
  refine ⟨fun _ => rfl, fun _ => rfl, fun _ => rfl, fun _ => rfl, fun _ => rfl, ?_⟩
  intro p atr_period hnone h
  have h2 := congrArg PricesTable.atrCol h
  rw [hnone] at h2
  simp [labeler_callerAfter] at h2

/-- C4 witness: the amended statement applied at a concrete one-row table
without an atr column. -/
theorem C4_caller_tables_witness :
    (⟨[⟨100, 101, 99, 100, 5⟩], none⟩ : PricesTable).atrCol = none
    ∧ labeler_callerAfter ⟨[⟨100, 101, 99, 100, 5⟩], none⟩ 2
        ≠ ⟨[⟨100, 101, 99, 100, 5⟩], none⟩ :=
  ⟨rfl, C4_caller_tables.2.2.2.2.2 ⟨[⟨100, 101, 99, 100, 5⟩], none⟩ 2 rfl⟩
